import Mathlib

/-!
Verification of the reactive core (`src/framework/state.ts`: `signal`, `effect`)
and the DOM builder (`setOrRemoveAttr`, `add`, `createElement`) of the
`thednp/framework-starter` repository, as a shallow embedding in Lean 4.

The JavaScript heap of closures is represented by an explicit `World` state:
every signal is an index into a list of (value, observer list) cells, every
effect is an index into a list of effect records, and the single module-level
`Observer` tracking pointer is a field of the state.  Effect callbacks are
user code, so they are embedded as programs in a small deep language `Prog`
whose continuations are Lean functions; the interpreter is fueled (JavaScript
can diverge through re-entrant notification).
-/

namespace Fw

abbrev SigId := Nat
abbrev EffId := Nat
abbrev ElemId := Nat
abbrev TextId := Nat

/-- JavaScript primitive values appearing as prop / attribute values. -/
inductive Prim where
  | str (s : String)
  | num (n : Int)
  | bool (b : Bool)
  | null
  | undef
deriving DecidableEq

/-- A JavaScript value as returned by an effect callback or accessor, or
passed raw into `setOrRemoveAttr`: a primitive, a function value (a would-be
cleanup callback, identified by a token), or a non-function object (a DOM
node or an array) carrying its `String(...)` conversion. -/
inductive Val where
  | prim (p : Prim)
  | fnv (c : Nat)
  | objv (s : String)
deriving DecidableEq

/-- A function value registered in a signal's observer set.
`compute e` is the closure `compute` created by the `e`-th call to `effect`;
`noop e` is the replacement closure `() => {}` installed by `e`'s disposer. -/
inductive Ob where
  | compute (e : EffId)
  | noop (e : EffId)
deriving DecidableEq

/-- Observable events, recorded in order of occurrence. -/
inductive Ev where
  /-- execution of the callback `fn` of effect `e` begins -/
  | fnStart (e : EffId)
  /-- the stored cleanup function `c` of effect `e` is invoked -/
  | cleanupRun (e : EffId) (c : Nat)
  /-- the disposer returned by the `e`-th `effect` call is invoked -/
  | dispose (e : EffId)
  /-- a signal accessor returned value `v` for signal `s` -/
  | sigRead (s : SigId) (v : Int)
  /-- `console.warn` for a malformed `on*` prop with the given key -/
  | warned (key : String)
deriving DecidableEq

/-- DOM attribute / listener API calls performed on an element. -/
inductive DomCall where
  | setAttributeNS (ns : Option String) (key : String) (v : String)
  | setAttribute (key : String) (v : String)
  | removeAttributeNS (ns : String) (key : String)
  | removeAttribute (key : String)
  | addEventListener (name : String)
  | removeEventListener (name : String)
deriving DecidableEq

/-- DOM mutations an effect callback can perform. -/
inductive DomOp where
  /-- `textNode.textContent = s` -/
  | setText (t : TextId) (s : String)
  /-- a call `setOrRemoveAttr(ns, element, key, value)` with the accessor
  (if any) already evaluated to `v` -/
  | setOrRemove (ns : Option String) (el : ElemId) (key : String) (v : Val)

/-- Deep embedding of effect-callback / accessor bodies.  `readS`'s
continuation receives the value returned by the signal accessor, so callbacks
may branch on the values they read. -/
inductive Prog where
  | ret (v : Val)
  | readS (s : SigId) (k : Int → Prog)
  | writeS (s : SigId) (v : Int) (k : Prog)
  | throwE
  | domOp (op : DomOp) (k : Prog)

/-- Sequencing of embedded programs. -/
def bindP : Prog → (Val → Prog) → Prog
  | .ret v, k => k v
  | .readS s kk, k => .readS s (fun n => bindP (kk n) k)
  | .writeS s v kk, k => .writeS s v (bindP kk k)
  | .throwE, _ => .throwE
  | .domOp op kk, k => .domOp op (bindP kk k)

/-- One signal cell: the captured `value` together with its `observers` set.
A JavaScript `Set` is insertion ordered, so it is a duplicate-free list. -/
structure SigSt where
  value : Int
  observers : List Ob
deriving DecidableEq

/-- The closure state of one `effect` call: the callback `fn`, the current
value of the `cleanup` variable (initially `undefined`), and whether the
disposer has replaced the `compute` variable by `() => {}`. -/
structure EffSt where
  fn : Prog
  cleanup : Val
  disposed : Bool

/-- A DOM element: tag, its `namespaceURI`, the log of attribute/listener
calls performed on it, and its child list. -/
structure Elem where
  tag : String
  namespaceURI : Option String
  calls : List DomCall
  children : List (Sum ElemId TextId)

/-- The whole mutable state: the module-level `Observer` pointer, the signal
cells, the effect closures, the DOM (elements and text nodes), the event
trace, and an environment telling which attribute-set calls throw. -/
structure World where
  observerPtr : Option Ob
  sigs : List SigSt
  effs : List EffSt
  elems : List Elem
  texts : List String
  trace : List Ev
  nsSetFails : Option String → String → Bool
  plainSetFails : String → Bool

def defaultSig : SigSt := ⟨0, []⟩

def defaultEff : EffSt := ⟨.ret (.prim .undef), .prim .undef, false⟩

def defaultElem : Elem := ⟨"", none, [], []⟩

def sigAt (w : World) (s : SigId) : SigSt := w.sigs.getD s defaultSig

def obsAt (w : World) (s : SigId) : List Ob := (sigAt w s).observers

def effAt (w : World) (e : EffId) : EffSt := w.effs.getD e defaultEff

def elemAt (w : World) (el : ElemId) : Elem := w.elems.getD el defaultElem

def sigUpd (w : World) (s : SigId) (sg : SigSt) : World :=
  { w with sigs := w.sigs.set s sg }

def effUpd (w : World) (e : EffId) (st : EffSt) : World :=
  { w with effs := w.effs.set e st }

def elemUpd (w : World) (el : ElemId) (f : Elem → Elem) : World :=
  { w with elems := w.elems.set el (f (elemAt w el)) }

def addTrace (w : World) (ev : Ev) : World :=
  { w with trace := w.trace ++ [ev] }

def setPtr (w : World) (o : Option Ob) : World :=
  { w with observerPtr := o }

/-- `Set.add`: insert at the end unless already present. -/
def addOb (l : List Ob) (o : Ob) : List Ob :=
  if o ∈ l then l else l ++ [o]

/-- The signal accessor (`state.ts` lines 10-15):
`() => { if (Observer) { observers.add(Observer); } return value; }`.
Also records a `sigRead` event with the returned value. -/
def readSig (w : World) (s : SigId) : Int × World :=
  let sg := sigAt w s
  let w1 :=
    match w.observerPtr with
    | some o => sigUpd w s { sg with observers := addOb sg.observers o }
    | none => w
  (sg.value, addTrace w1 (.sigRead s sg.value))

/-- The first statement of the signal setter: `value = v;`. -/
def storeVal (w : World) (s : SigId) (v : Int) : World :=
  sigUpd w s { sigAt w s with value := v }

/-- `cleanup = r` for effect `e`. -/
def setEffCleanup (w : World) (e : EffId) (r : Val) : World :=
  effUpd w e { effAt w e with cleanup := r }

/-- JavaScript truthiness of a value (`if (cleanup) ...`). -/
def truthyVal : Val → Bool
  | .prim (.str s) => s ≠ ""
  | .prim (.num n) => n ≠ 0
  | .prim (.bool b) => b
  | .prim .null => false
  | .prim .undef => false
  | .fnv _ => true
  | .objv _ => true

/-- `if (cleanup) cleanup();`: a stored function value is invoked (recorded
as a `cleanupRun` event); a falsy value is skipped; a truthy non-function
(including any object) throws a `TypeError`. -/
def invokeCleanup (e : EffId) (v : Val) (w : World) : Except Unit World :=
  match v with
  | .fnv c => .ok (addTrace w (.cleanupRun e c))
  | .objv _ => .error ()
  | .prim p => if truthyVal (.prim p) then .error () else .ok w

def xhtmlNS : String := "http://www.w3.org/1999/xhtml"

def svgNS : String := "http://www.w3.org/2000/svg"

def mathmlNS : String := "http://www.w3.org/1998/Math/MathML"

/-- The `attrNamespaces` table of `setOrRemoveAttr`, in `Object.entries`
order. -/
def attrNamespaces : List (String × String) :=
  [("xlink:", "http://www.w3.org/1999/xlink"),
   ("xml:", "http://www.w3.org/XML/1998/namespace"),
   ("xsi:", "http://www.w3.org/2001/XMLSchema-instance")]

/-- JavaScript `a || b` on nullable strings: `null` and `""` are falsy. -/
def orFalsy (a b : Option String) : Option String :=
  match a with
  | some s => if s = "" then b else some s
  | none => b

/-- `key.startsWith(prefix)`, computed on the character list. -/
def strStarts (s pre : String) : Bool :=
  pre.data.isPrefixOf s.data

/-- The characters after the first colon, if any. -/
def dropThroughColon : List Char → Option (List Char)
  | [] => none
  | c :: cs => if c = ':' then some cs else dropThroughColon cs

/-- `key.replace(/^[^:]+:/, "")`: strip a non-empty run of non-colon
characters followed by a colon, if the key starts with one. -/
def stripNsPref (key : String) : String :=
  match key.data with
  | [] => key
  | c :: cs =>
    if c = ':' then key
    else
      match dropThroughColon (c :: cs) with
      | some rest => ⟨rest⟩
      | none => key

/-- The namespace computation of `setOrRemoveAttr`: start from
`ns || element.namespaceURI || null`, override with the first matching entry
of `attrNamespaces`, and map the XHTML namespace to `null`. -/
def computeAttrNS (ns : Option String) (elemNS : Option String) (key : String) :
    Option String :=
  let elementNS := orFalsy ns (orFalsy elemNS none)
  let attrNS :=
    match attrNamespaces.find? (fun pu => strStarts key pu.1) with
    | some pu => some pu.2
    | none => elementNS
  if attrNS = some xhtmlNS then none else attrNS

/-- JavaScript `String(v)`. -/
def strOfPrim : Prim → String
  | .str s => s
  | .num n => toString n
  | .bool b => if b then "true" else "false"
  | .null => "null"
  | .undef => "undefined"

def strOfVal : Val → String
  | .prim p => strOfPrim p
  | .fnv _ => "function"
  | .objv s => s

/-- The removal condition of `setOrRemoveAttr`:
`value == null || value === false || value === "" || value === undefined`. -/
def removesAttr : Val → Bool
  | .prim .null => true
  | .prim .undef => true
  | .prim (.bool b) => !b
  | .prim (.str s) => s = ""
  | _ => false

/-- `value === true ? key.replace(/^[^:]+:/, "") : String(value)`. -/
def attrStr (key : String) (v : Val) : String :=
  if v = .prim (.bool true) then stripNsPref key else strOfVal v

/-- Record a sequence of DOM API calls on an element. -/
def pushCalls (w : World) (el : ElemId) (cs : List DomCall) : World :=
  elemUpd w el (fun e => { e with calls := e.calls ++ cs })

/-- The DOM API calls performed by the body of `setOrRemoveAttr` after the
raw value has been evaluated (`state.ts` lines 75-120), given which
`setAttributeNS` / `setAttribute` calls throw: compute the attribute
namespace, then either remove the attribute (silently catching failures) or
set it, where a throwing `setAttributeNS` is caught and retried as a plain
`setAttribute`; `none` is an uncaught exception from the retry. -/
def setOrRemoveCalls (failNS : Option String → String → Bool)
    (failPlain : String → Bool) (elemNS : Option String) (ns : Option String)
    (key : String) (v : Val) : Option (List DomCall) :=
  let attrNS := computeAttrNS ns elemNS key
  if removesAttr v then
    match attrNS with
    | some u =>
      if u ≠ "" ∧ u ≠ "null" then
        some [.removeAttributeNS u (stripNsPref key)]
      else
        some [.removeAttribute key, .removeAttribute (stripNsPref key)]
    | none =>
      some [.removeAttribute key, .removeAttribute (stripNsPref key)]
  else
    let a := attrStr key v
    if failNS attrNS key then
      -- setAttributeNS threw; the catch retries without a namespace
      if failPlain key then none else some [.setAttribute key a]
    else
      some [.setAttributeNS attrNS key a]

/-- `setOrRemoveAttr` acting on the world: perform the computed calls, or
propagate the uncaught exception. -/
def setOrRemoveAttrD (w : World) (ns : Option String) (el : ElemId)
    (key : String) (v : Val) : Except Unit Unit × World :=
  match setOrRemoveCalls w.nsSetFails w.plainSetFails
      (elemAt w el).namespaceURI ns key v with
  | none => (.error (), w)
  | some cs => (.ok (), pushCalls w el cs)

/-- Interpretation of a DOM mutation performed inside an effect callback. -/
def applyDom (w : World) : DomOp → Except Unit Unit × World
  | .setText t s => (.ok (), { w with texts := w.texts.set t s })
  | .setOrRemove ns el key v => setOrRemoveAttrD w ns el key v

/-- Sequencing of two statements: fuel exhaustion and uncaught exceptions
short-circuit. -/
def andThen {α : Type} (step : Option (Except Unit Unit × World))
    (k : World → Option (Except Unit α × World)) :
    Option (Except Unit α × World) :=
  match step with
  | none => none
  | some (.error (), w') => some (.error (), w')
  | some (.ok (), w') => k w'

/-- Sequencing after an infallible-in-fuel statement. -/
def andThenE {α : Type} (step : Except Unit Unit × World)
    (k : World → Option (Except Unit α × World)) :
    Option (Except Unit α × World) :=
  match step with
  | (.error (), w') => some (.error (), w')
  | (.ok (), w') => k w'

/-- Discard the value of a completed statement. -/
def toUnit {α : Type} :
    Option (Except Unit α × World) → Option (Except Unit Unit × World)
  | none => none
  | some (.error (), w) => some (.error (), w)
  | some (.ok _, w) => some (.ok (), w)

/-- The tail of the `compute` body after `cleanup = fn()` has been resolved:
store the result in `cleanup` and reset `Observer` to `null` (the `finally`
also fires on an exception and on fuel exhaustion). -/
def finishCompute (e : EffId) :
    Option (Except Unit Val × World) → Option (Except Unit Unit × World)
  | none => none
  | some (.error (), w3) => some (.error (), setPtr w3 none)
  | some (.ok r3, w3) => some (.ok (), setPtr (setEffCleanup w3 e r3) none)

mutual

/-- Run an embedded callback body.  Fuel decreases at every step. -/
def runProg : Nat → Prog → World → Option (Except Unit Val × World)
  | 0, _, _ => none
  | fuel + 1, p, w =>
    match p with
    | .ret v => some (.ok v, w)
    | .throwE => some (.error (), w)
    | .readS s k =>
      let r := readSig w s
      runProg fuel (k r.1) r.2
    | .writeS s v k =>
      andThen (writeSig fuel w s v) (fun w' => runProg fuel k w')
    | .domOp op k =>
      andThenE (applyDom w op) (fun w' => runProg fuel k w')

/-- The signal setter (`state.ts` lines 16-21):
`(v) => { value = v; for (let o of observers) { o(); } }`. -/
def writeSig : Nat → World → SigId → Int → Option (Except Unit Unit × World)
  | 0, _, _, _ => none
  | fuel + 1, w, s, v => notifyFrom fuel s 0 (storeVal w s v)

/-- The notification loop of the setter: JavaScript `Set` iteration is live
and observer sets only grow at the end, so iterate by index, re-reading the
set at each step.  An exception from an observer aborts the loop. -/
def notifyFrom : Nat → SigId → Nat → World → Option (Except Unit Unit × World)
  | 0, _, _, _ => none
  | fuel + 1, s, i, w =>
    if h : i < (obsAt w s).length then
      andThen (runOb fuel ((obsAt w s).get ⟨i, h⟩) w)
        (fun w' => notifyFrom fuel s (i + 1) w')
    else some (.ok (), w)

/-- Invoke a registered observer closure.  `noop e` is `() => {}`.
`compute e` is the body of `compute` (`state.ts` lines 29-37):
run the previous cleanup, set `Observer` to the current value of the
`compute` variable, run `fn` recording the result in `cleanup`, and reset
`Observer` to `null` in the `finally` even on an exception. -/
def runOb : Nat → Ob → World → Option (Except Unit Unit × World)
  | 0, _, _ => none
  | _ + 1, .noop _, w => some (.ok (), w)
  | fuel + 1, .compute e, w =>
    match invokeCleanup e (effAt w e).cleanup w with
    | .error () => some (.error (), setPtr w none)
    | .ok w1 =>
      finishCompute e (runProg fuel (effAt w e).fn
        (addTrace (setPtr w1 (some (if (effAt w e).disposed then Ob.noop e
          else Ob.compute e))) (.fnStart e)))

end

/-- `signal(value)`: allocate a fresh cell with an empty observer set.
The returned index stands for the accessor/setter closure pair. -/
def newSignalW (w : World) (v : Int) : SigId × World :=
  (w.sigs.length, { w with sigs := w.sigs ++ [⟨v, []⟩] })

/-- `effect(fn)` (`state.ts` lines 25-44): create the `compute` closure with
`cleanup` initially `undefined`, run it once, and return the effect id (which
stands for the disposer closure). -/
def newEffect (fuel : Nat) (p : Prog) (w : World) :
    Option (Except Unit EffId × World) :=
  let e := w.effs.length
  let w1 := { w with effs := w.effs ++ [⟨p, .prim .undef, false⟩] }
  andThen (runOb fuel (.compute e) w1) (fun w' => some (.ok e, w'))

/-- The disposer returned by `effect` (`state.ts` lines 40-43):
`() => { if (cleanup) cleanup(); compute = () => {}; }`.
Note that it neither clears `cleanup` nor removes the old `compute` closure
from any observer set. -/
def disposeEff (w : World) (e : EffId) : Except Unit Unit × World :=
  let w0 := addTrace w (.dispose e)
  match invokeCleanup e (effAt w0 e).cleanup w0 with
  | .error () => (.error (), w0)
  | .ok w1 => (.ok (), effUpd w1 e { effAt w1 e with disposed := true })

/-- A JavaScript value as it may appear as an `Object.entries` value of the
props argument or as a `MaybeChildNode`: a primitive, a function (event
handler, accessor, or the value of an accessor-typed prop), a DOM node, or
an array. -/
inductive JsVal where
  | prim (p : Prim)
  | func (f : Prog)
  | node (n : Sum ElemId TextId)
  | arr (cs : List JsVal)

/-- Prop values are `Object.entries` values of the first argument. -/
abbrev PropVal := JsVal

/-- `MaybeChildNode` values are the same value domain. -/
abbrev Child := JsVal

/-- The first optional argument of `createElement`: either a plain props
object, or any other value (child-like).  A JavaScript array passed first is
an object too, so it flows through the props branch via `Object.entries`
(one index key per element) in addition to the child treatment. -/
inductive FirstArg where
  | props (ps : List (String × PropVal))
  | child (c : Child)

/-- The host's `String(...)` conversion of a DOM node
(`"[object HTMLDivElement]"`-style; the precise interface name is elided). -/
def nodeStr : Sum ElemId TextId → String
  | .inl _ => "[object Element]"
  | .inr _ => "[object Text]"

mutual

/-- JavaScript `String(v)` of a value appearing inside an array
(`Array.prototype.toString` joins with commas; `null` and `undefined`
become empty). -/
def jsValJoinStr : JsVal → String
  | .prim .null => ""
  | .prim .undef => ""
  | .prim p => strOfPrim p
  | .func _ => "function"
  | .node n => nodeStr n
  | .arr cs => arrJoin cs

def arrJoin : List JsVal → String
  | [] => ""
  | [c] => jsValJoinStr c
  | c :: rest => jsValJoinStr c ++ "," ++ arrJoin rest

end

/-- The effect callback created for a non-event prop:
`() => setOrRemoveAttr(attrNamespace, element, key, value)`, whose first step
evaluates `typeof rawValue === "function" ? rawValue() : rawValue`: a
function value is called (under tracking), any other value is passed raw. -/
def attrProg (ns : Option String) (el : ElemId) (key : String) :
    PropVal → Prog
  | .func f => bindP f (fun rv =>
      .domOp (.setOrRemove ns el key rv) (.ret (.prim .undef)))
  | .prim p => .domOp (.setOrRemove ns el key (.prim p)) (.ret (.prim .undef))
  | .node n => .domOp (.setOrRemove ns el key (.objv (nodeStr n)))
      (.ret (.prim .undef))
  | .arr cs => .domOp (.setOrRemove ns el key (.objv (arrJoin cs)))
      (.ret (.prim .undef))

/-- The effect callback created for an accessor child:
`() => { textNode.textContent = String(child()); }`. -/
def textProg (t : TextId) (f : Prog) : Prog :=
  bindP f (fun v => .domOp (.setText t (strOfVal v)) (.ret (.prim .undef)))

/-- Modelled from the spec: `src/framework/ns.ts` is not among the provided
sources; the README describes it as "Namespace definitions for SVG and MathML
elements".  We model `namespaceElements` as a finite map sending SVG tag
names to the SVG namespace and MathML tag names to the MathML namespace. -/
def namespaceElements (tag : String) : Option String :=
  if tag ∈ ["svg", "path", "circle", "rect", "g", "line", "text"] then
    some svgNS
  else if tag ∈ ["math", "mrow", "mi", "mo", "mn", "mfrac"] then
    some mathmlNS
  else none

/-- One iteration of the props `forEach` in `createElement`
(`state.ts` lines 168-187): `on*` keys attach (or warn about) an event
listener, every other key is bound in its own `effect` calling
`setOrRemoveAttr` with `key === "xmlns" ? null : element.namespaceURI`. -/
def applyProp (fuel : Nat) (el : ElemId) (key : String) (v : PropVal)
    (w : World) : Option (Except Unit Unit × World) :=
  if strStarts key "on" then
    match v with
    | .func _ =>
      let eventName : String := ⟨(key.data.drop 2).map Char.toLower⟩
      some (.ok (), elemUpd w el (fun e =>
        { e with calls := e.calls ++
            [.removeEventListener eventName, .addEventListener eventName] }))
    | .prim _ => some (.ok (), addTrace w (.warned key))
    | .node _ => some (.ok (), addTrace w (.warned key))
    | .arr _ => some (.ok (), addTrace w (.warned key))
  else
    let attrNamespace :=
      if key = "xmlns" then none else (elemAt w el).namespaceURI
    toUnit (newEffect fuel (attrProg attrNamespace el key v) w)

/-- `Object.entries(first).forEach(...)`. -/
def applyProps (fuel : Nat) (el : ElemId) :
    List (String × PropVal) → World → Option (Except Unit Unit × World)
  | [], w => some (.ok (), w)
  | (key, v) :: ps, w =>
    andThen (applyProp fuel el key v w) (fun w' => applyProps fuel el ps w')

def appendChild (w : World) (p : ElemId) (n : Sum ElemId TextId) : World :=
  elemUpd w p (fun e => { e with children := e.children ++ [n] })

mutual

/-- `add(parent, child)` (`state.ts` lines 123-137): arrays recurse, nodes
are appended, a function (accessor) gets a fresh empty text node updated
inside its own `effect` and then appended, numbers and strings become static
text nodes; any other value matches no branch and is silently ignored. -/
def addChild (fuel : Nat) (parent : ElemId) (c : Child) (w : World) :
    Option (Except Unit Unit × World) :=
  match c with
  | .arr cs => addKids fuel parent cs w
  | .node n => some (.ok (), appendChild w parent n)
  | .func f =>
    let t := w.texts.length
    let w1 := { w with texts := w.texts ++ [""] }
    andThen (toUnit (newEffect fuel (textProg t f) w1))
      (fun w' => some (.ok (), appendChild w' parent (.inr t)))
  | .prim (.str s) =>
    let t := w.texts.length
    some (.ok (), appendChild { w with texts := w.texts ++ [s] } parent (.inr t))
  | .prim (.num n) =>
    let t := w.texts.length
    some (.ok (),
      appendChild { w with texts := w.texts ++ [toString n] } parent (.inr t))
  | .prim (.bool _) => some (.ok (), w)
  | .prim .null => some (.ok (), w)
  | .prim .undef => some (.ok (), w)

def addKids (fuel : Nat) (parent : ElemId) (cs : List Child) (w : World) :
    Option (Except Unit Unit × World) :=
  match cs with
  | [] => some (.ok (), w)
  | c :: rest =>
    andThen (addChild fuel parent c w) (fun w' => addKids fuel parent rest w')

end

/-- `first && (typeof first === "function" || typeof first === "string" ||
first instanceof Node || Array.isArray(first))`: the truthiness guard drops
an empty string, and the type test drops numbers and the remaining
primitives. -/
def addableFirst : Child → Bool
  | .func _ => true
  | .node _ => true
  | .arr _ => true
  | .prim (.str s) => if s = "" then false else true
  | .prim _ => false

/-- `Object.entries(first)` when `first` is a JavaScript array: one entry
per element, keyed by the decimal index string. -/
def entriesOfArr (cs : List JsVal) : List (String × PropVal) :=
  cs.enum.map (fun ic => (toString ic.1, ic.2))

/-- `createElement(tagName, first, ...children)` (`state.ts` lines 160-198):
create the (possibly namespaced) element; run the props branch when `first`
is a truthy non-Node object — a plain props object, or an array, whose
`Object.entries` are its index-keyed elements; then append the first
argument when it is truthy and child-like, then the remaining children. -/
def createElement (fuel : Nat) (tag : String) (first : Option FirstArg)
    (children : List Child) (w : World) :
    Option (Except Unit ElemId × World) :=
  let ns := namespaceElements tag
  let el := w.elems.length
  let nsuri : Option String := some (ns.getD xhtmlNS)
  let w1 := { w with elems := w.elems ++ [⟨tag, nsuri, [], []⟩] }
  let afterProps :=
    match first with
    | some (.props ps) => applyProps fuel el ps w1
    | some (.child (.arr cs)) => applyProps fuel el (entriesOfArr cs) w1
    | _ => some (.ok (), w1)
  andThen afterProps (fun w2 =>
    let afterFirst :=
      match first with
      | some (.child c) =>
        if addableFirst c then addChild fuel el c w2 else some (.ok (), w2)
      | _ => some (.ok (), w2)
    andThen afterFirst (fun w3 =>
      andThen (addKids fuel el children w3) (fun w4 => some (.ok el, w4))))

/-- Top-level statements of a driver script using the framework. -/
inductive TopCmd where
  | newSig (v : Int)
  | writeTop (s : SigId) (v : Int)
  | readTop (s : SigId)
  | newEff (p : Prog)
  | disp (e : EffId)

/-- Run a straight-line script at top level (where `Observer` is `null`).
An uncaught exception aborts the rest of the script. -/
def runTop (fuel : Nat) : List TopCmd → World → Option (Except Unit Unit × World)
  | [], w => some (.ok (), w)
  | cmd :: rest, w =>
    let step : Option (Except Unit Unit × World) :=
      match cmd with
      | .newSig v => some (.ok (), (newSignalW w v).2)
      | .writeTop s v => writeSig fuel w s v
      | .readTop s => some (.ok (), (readSig w s).2)
      | .newEff p => toUnit (newEffect fuel p w)
      | .disp e => some (disposeEff w e)
    andThen step (fun w' => runTop fuel rest w')

/-- A world with no signals, effects or DOM nodes, in which no attribute-set
call throws. -/
def w0 : World :=
  ⟨none, [], [], [], [], [], fun _ _ => false, fun _ => false⟩

/-- Did a run complete without running out of fuel and without an uncaught
exception? -/
def isOkRun {α : Type} (r : Option (Except Unit α × World)) : Bool :=
  match r with
  | some (.ok _, _) => true
  | _ => false

/-- The final world of a run (or `w` if the run did not finish). -/
def outWorld {α : Type} (w : World) (r : Option (Except Unit α × World)) : World :=
  match r with
  | some (_, w') => w'
  | none => w

/-- The trace of a completed run. -/
def traceOf (r : Option (Except Unit Unit × World)) : Option (List Ev) :=
  match r with
  | some (.ok (), w') => some w'.trace
  | _ => none

/-- The stored value of signal `j` after a completed run. -/
def sigValOut (r : Option (Except Unit Unit × World)) (j : SigId) : Option Int :=
  match r with
  | some (.ok (), w') => some (sigAt w' j).value
  | _ => none

/-! ### Spec-side description of the wiring performed by `createElement`

These definitions follow the specification's words — one effect per reactive
(non-event) attribute, and one dedicated text node plus one effect per
accessor child — and are compared with the embedding of `createElement`. -/

/-- Spec side: the effect callbacks expected for a props list — for every
key not starting with `on`, one effect binding that key through
`setOrRemoveAttr` (with the `xmlns` exception for the namespace). -/
def specPropFns (elNS : Option String) (el : ElemId)
    (ps : List (String × PropVal)) : List Prog :=
  ps.filterMap (fun kv =>
    if strStarts kv.1 "on" then none
    else some (attrProg (if kv.1 = "xmlns" then none else elNS) el kv.1 kv.2))

mutual

/-- Spec side: the (dedicated text node, accessor) pairs expected for a
child tree, threading the text-node allocation counter (strings and numbers
also allocate a text node but get no effect; other primitives are
ignored). -/
def specChildAccs (t0 : Nat) : Child → List (Nat × Prog) × Nat
  | .arr cs => specChildrenAccs t0 cs
  | .node _ => ([], t0)
  | .func f => ([(t0, f)], t0 + 1)
  | .prim (.str _) => ([], t0 + 1)
  | .prim (.num _) => ([], t0 + 1)
  | .prim (.bool _) => ([], t0)
  | .prim .null => ([], t0)
  | .prim .undef => ([], t0)

def specChildrenAccs (t0 : Nat) : List Child → List (Nat × Prog) × Nat
  | [] => ([], t0)
  | c :: rest =>
    let a := specChildAccs t0 c
    let b := specChildrenAccs a.2 rest
    (a.1 ++ b.1, b.2)

end

/-- Spec side: the (text node, accessor) pairs contributed by the first
argument when it passes the add guard. -/
def specFirstAccs (first : Option FirstArg) (t0 : Nat) :
    List (Nat × Prog) × Nat :=
  match first with
  | some (.child c) => if addableFirst c then specChildAccs t0 c else ([], t0)
  | _ => ([], t0)

/-- Spec side: the attribute-binding effect callbacks contributed by the
props branch — one per non-event key of a props object, and one per index
key when the first argument is an array. -/
def specFirstPropFns (elNS : Option String) (el : ElemId) :
    Option FirstArg → List Prog
  | some (.props ps) => specPropFns elNS el ps
  | some (.child (.arr cs)) => specPropFns elNS el (entriesOfArr cs)
  | _ => []

/-- Spec side: all (text node, accessor) pairs for a `createElement` call —
the first argument when it is an addable child, then the children. -/
def specCreateAccs (first : Option FirstArg) (children : List Child)
    (t0 : Nat) : List (Nat × Prog) × Nat :=
  let firstAccs := specFirstAccs first t0
  let childAccs := specChildrenAccs firstAccs.2 children
  (firstAccs.1 ++ childAccs.1, childAccs.2)

/-- Spec side: the full expected list of effect callbacks wired by one
`createElement` call: one attribute-binding effect per non-event entry of
the props branch, then one per accessor child, each accessor child's effect
updating its own dedicated text node. -/
def specCreateFns (elNS : Option String) (el : ElemId)
    (first : Option FirstArg) (children : List Child) (t0 : Nat) :
    List Prog :=
  specFirstPropFns elNS el first ++
  (specCreateAccs first children t0).1.map (fun tp => textProg tp.1 tp.2)

/-! ### Structural preservation by the interpreter -/

/-- The shape of an element, unchanged by every DOM mutation. -/
def elemShape (e : Elem) : String × Option String := (e.tag, e.namespaceURI)

/-- Facts preserved by every interpreter step: the signal, effect, element
and text-node populations are stable, observer sets only grow at the end,
callback functions are never replaced, and the trace only grows at the
end. -/
structure Pres (w w' : World) : Prop where
  sigsLen : w'.sigs.length = w.sigs.length
  obsMono : ∀ j, obsAt w j <+: obsAt w' j
  fnsEq : w'.effs.map EffSt.fn = w.effs.map EffSt.fn
  textsLen : w'.texts.length = w.texts.length
  elemsShape : w'.elems.map elemShape = w.elems.map elemShape
  traceMono : w.trace <+: w'.trace

theorem presRefl {w : World} : Pres w w :=
  ⟨Eq.refl _, fun _ => List.prefix_refl _, Eq.refl _, Eq.refl _, Eq.refl _,
   List.prefix_refl _⟩

theorem Pres.trans {w1 w2 w3 : World} (a : Pres w1 w2) (b : Pres w2 w3) :
    Pres w1 w3 :=
  ⟨b.sigsLen.trans a.sigsLen,
   fun j => (a.obsMono j).trans (b.obsMono j),
   b.fnsEq.trans a.fnsEq,
   b.textsLen.trans a.textsLen,
   b.elemsShape.trans a.elemsShape,
   (a.traceMono).trans b.traceMono⟩

theorem pres_setPtr {w : World} {o : Option Ob} : Pres w (setPtr w o) :=
  ⟨Eq.refl _, fun _ => List.prefix_refl _, Eq.refl _, Eq.refl _, Eq.refl _,
   List.prefix_refl _⟩

theorem pres_addTrace {w : World} {ev : Ev} : Pres w (addTrace w ev) :=
  ⟨Eq.refl _, fun _ => List.prefix_refl _, Eq.refl _, Eq.refl _, Eq.refl _,
   ⟨[ev], rfl⟩⟩

theorem getD_set {β : Type} (l : List β) (i j : Nat) (b d : β) :
    (l.set i b).getD j d = if j = i ∧ i < l.length then b else l.getD j d := by
  induction l generalizing i j with
  | nil => simp
  | cons x xs ihx =>
    cases i with
    | zero =>
      cases j with
      | zero => simp
      | succ jj => simp
    | succ ii =>
      cases j with
      | zero => simp
      | succ jj =>
        rw [show (x :: xs).set (ii + 1) b = x :: xs.set ii b from rfl]
        simp only [List.getD_cons_succ, ihx]
        by_cases hc : jj = ii ∧ ii < xs.length
        · rw [if_pos hc, if_pos]
          exact ⟨by omega, by simpa using Nat.succ_lt_succ hc.2⟩
        · rw [if_neg hc, if_neg]
          intro hcc
          exact hc ⟨by omega, by
            have := hcc.2
            simp only [List.length_cons] at this
            omega⟩

theorem sigAt_set {w : World} {s : SigId} {sg : SigSt} {j : SigId} :
    sigAt (sigUpd w s sg) j =
      if j = s ∧ s < w.sigs.length then sg else sigAt w j :=
  getD_set w.sigs s j sg defaultSig

theorem pres_sigUpd {w : World} {s : SigId} {sg : SigSt}
    (h : (sigAt w s).observers <+: sg.observers) : Pres w (sigUpd w s sg) := by
  refine ⟨by simp [sigUpd], ?_, Eq.refl _, Eq.refl _, Eq.refl _,
    List.prefix_refl _⟩
  intro j
  rw [show obsAt (sigUpd w s sg) j = (sigAt (sigUpd w s sg) j).observers from rfl,
    sigAt_set]
  split
  · rename_i hc
    rw [show obsAt w j = (sigAt w j).observers from rfl, hc.1]
    exact h
  · exact List.prefix_refl _

theorem addOb_extends (l : List Ob) (o : Ob) : l <+: addOb l o := by
  unfold addOb
  split
  · exact List.prefix_refl _
  · exact ⟨[o], rfl⟩

theorem pres_storeVal {w : World} {s : SigId} {v : Int} :
    Pres w (storeVal w s v) :=
  pres_sigUpd (List.prefix_refl _)

theorem pres_readSig {w : World} {s : SigId} : Pres w (readSig w s).2 := by
  unfold readSig
  cases hp : w.observerPtr with
  | none => exact pres_addTrace
  | some o =>
    simp only [hp]
    exact (pres_sigUpd (addOb_extends _ _)).trans pres_addTrace

theorem set_self_of_get {β : Type} (l : List β) (i : Nat) (b : β)
    (h : ∀ hh : i < l.length, l.get ⟨i, hh⟩ = b) : l.set i b = l := by
  induction l generalizing i with
  | nil => rfl
  | cons x xs ihx =>
    cases i with
    | zero => simpa using (h (by simp)).symm
    | succ n =>
      simp only [List.set]
      congr 1
      exact ihx n (fun hh => h (by simpa using Nat.succ_lt_succ hh))

theorem map_fn_effUpd {w : World} {e : EffId} {st : EffSt}
    (h : st.fn = (effAt w e).fn) :
    (effUpd w e st).effs.map EffSt.fn = w.effs.map EffSt.fn := by
  unfold effUpd
  simp only [List.map_set]
  apply set_self_of_get
  intro hh
  simp only [List.length_map] at hh
  rw [h]
  simp [effAt, List.getD, List.getElem?_eq_getElem hh, List.get_eq_getElem]

theorem pres_effUpd {w : World} {e : EffId} {st : EffSt}
    (h : st.fn = (effAt w e).fn) : Pres w (effUpd w e st) :=
  ⟨Eq.refl _, fun _ => List.prefix_refl _, map_fn_effUpd h, Eq.refl _,
   Eq.refl _, List.prefix_refl _⟩

theorem pres_setEffCleanup {w : World} {e : EffId} {r : Val} :
    Pres w (setEffCleanup w e r) :=
  pres_effUpd rfl

theorem map_shape_elemUpd {w : World} {el : ElemId} {f : Elem → Elem}
    (h : ∀ e, elemShape (f e) = elemShape e) :
    (elemUpd w el f).elems.map elemShape = w.elems.map elemShape := by
  unfold elemUpd
  simp only [List.map_set]
  apply set_self_of_get
  intro hh
  simp only [List.length_map] at hh
  rw [h]
  simp [elemAt, List.getD, List.getElem?_eq_getElem hh, List.get_eq_getElem]

theorem pres_elemUpd {w : World} {el : ElemId} {f : Elem → Elem}
    (h : ∀ e, elemShape (f e) = elemShape e) : Pres w (elemUpd w el f) :=
  ⟨Eq.refl _, fun _ => List.prefix_refl _, Eq.refl _, Eq.refl _,
   map_shape_elemUpd h, List.prefix_refl _⟩

theorem pres_pushCalls {w : World} {el : ElemId} {cs : List DomCall} :
    Pres w (pushCalls w el cs) :=
  pres_elemUpd (fun _ => rfl)

theorem pres_setOrRemoveAttrD {w : World} {ns : Option String} {el : ElemId}
    {key : String} {v : Val} {r : Except Unit Unit} {w' : World}
    (h : setOrRemoveAttrD w ns el key v = (r, w')) : Pres w w' := by
  unfold setOrRemoveAttrD at h
  rcases hc : setOrRemoveCalls w.nsSetFails w.plainSetFails
      (elemAt w el).namespaceURI ns key v with _ | cs <;> rw [hc] at h
  · cases h; exact presRefl
  · cases h; exact pres_pushCalls

theorem pres_applyDom {w : World} {op : DomOp} {r : Except Unit Unit}
    {w' : World} (h : applyDom w op = (r, w')) : Pres w w' := by
  cases op with
  | setText t s =>
    cases h
    exact ⟨Eq.refl _, fun _ => List.prefix_refl _, Eq.refl _, by simp,
      Eq.refl _, List.prefix_refl _⟩
  | setOrRemove ns el key v => exact pres_setOrRemoveAttrD h

theorem pres_invokeCleanup {e : EffId} {v : Val} {w w' : World}
    (h : invokeCleanup e v w = .ok w') : Pres w w' := by
  cases v with
  | fnv c =>
    have h' : Except.ok (ε := Unit) (addTrace w (.cleanupRun e c)) = .ok w' := h
    cases h'
    exact pres_addTrace
  | objv s =>
    have h' : (Except.error () : Except Unit World) = .ok w' := h
    exact Except.noConfusion h'
  | prim p =>
    have h' : (if truthyVal (.prim p) then (Except.error () : Except Unit World)
        else .ok w) = .ok w' := h
    split at h'
    · cases h'
    · cases h'; exact presRefl

theorem pres_andThen {α : Type} {w : World}
    {step : Option (Except Unit Unit × World)}
    {k : World → Option (Except Unit α × World)} {r : Except Unit α}
    {w' : World}
    (h : andThen step k = some (r, w'))
    (hs : ∀ r1 w1, step = some (r1, w1) → Pres w w1)
    (hk : ∀ w1 r2 w2, k w1 = some (r2, w2) → Pres w1 w2) : Pres w w' := by
  rcases hstep : step with _ | ⟨r1, w1⟩
  · rw [hstep] at h; simp [andThen] at h
  · rcases r1 with u | u <;> cases u <;> rw [hstep] at h
    · simp only [andThen] at h
      cases h
      exact hs _ _ hstep
    · simp only [andThen] at h
      exact (hs _ _ hstep).trans (hk _ _ _ h)

theorem someInv {α β : Type} {a a' : α} {b b' : β}
    (h : (some (a, b) : Option (α × β)) = some (a', b')) : a = a' ∧ b = b' := by
  cases h; exact ⟨rfl, rfl⟩

theorem pres_andThenE {α : Type} {w : World}
    {step : Except Unit Unit × World}
    {k : World → Option (Except Unit α × World)} {r : Except Unit α}
    {w' : World}
    (h : andThenE step k = some (r, w'))
    (hs : ∀ r1 w1, step = (r1, w1) → Pres w w1)
    (hk : ∀ w1 r2 w2, k w1 = some (r2, w2) → Pres w1 w2) : Pres w w' := by
  rcases hstep : step with ⟨r1, w1⟩
  rcases r1 with u | u <;> cases u <;> rw [hstep] at h
  · simp only [andThenE] at h
    cases h
    exact hs _ _ hstep
  · simp only [andThenE] at h
    exact (hs _ _ hstep).trans (hk _ _ _ h)

theorem pres_toUnit {α : Type} {w : World}
    {x : Option (Except Unit α × World)} {r : Except Unit Unit} {w' : World}
    (h : toUnit x = some (r, w'))
    (hs : ∀ r1 w1, x = some (r1, w1) → Pres w w1) : Pres w w' := by
  rcases hx : x with _ | ⟨r1, w1⟩
  · rw [hx] at h; simp [toUnit] at h
  · rcases r1 with u | a
    · cases u
      rw [hx] at h
      simp only [toUnit] at h
      cases h
      exact hs _ _ hx
    · rw [hx] at h
      simp only [toUnit] at h
      cases h
      exact hs _ _ hx

theorem pres_finishCompute {e : EffId} {x : Option (Except Unit Val × World)}
    {r : Except Unit Unit} {w w' : World}
    (h : finishCompute e x = some (r, w'))
    (hx : ∀ r1 w1, x = some (r1, w1) → Pres w w1) : Pres w w' := by
  rcases hx2 : x with _ | ⟨r1, w1⟩ <;> rw [hx2] at h
  · exact Option.noConfusion h
  · rcases r1 with u | r3
    · cases u
      obtain ⟨_, hw⟩ := someInv h
      subst hw
      exact (hx _ _ hx2).trans pres_setPtr
    · obtain ⟨_, hw⟩ := someInv h
      subst hw
      exact ((hx _ _ hx2).trans pres_setEffCleanup).trans pres_setPtr

/-- Every step of the interpreter preserves the structural facts of `Pres`:
proved for the four mutually recursive functions at once, by induction on
fuel. -/
theorem pres_run (fuel : Nat) :
    (∀ p w r w', runProg fuel p w = some (r, w') → Pres w w') ∧
    (∀ w s v r w', writeSig fuel w s v = some (r, w') → Pres w w') ∧
    (∀ s i w r w', notifyFrom fuel s i w = some (r, w') → Pres w w') ∧
    (∀ o w r w', runOb fuel o w = some (r, w') → Pres w w') := by
  induction fuel with
  | zero =>
    refine ⟨?_, ?_, ?_, ?_⟩
    · intro p w r w' h; exact Option.noConfusion h
    · intro w s v r w' h; exact Option.noConfusion h
    · intro s i w r w' h; exact Option.noConfusion h
    · intro o w r w' h; exact Option.noConfusion h
  | succ n ih =>
    obtain ⟨ihP, ihW, ihN, ihO⟩ := ih
    refine ⟨?_, ?_, ?_, ?_⟩
    · intro p w r w' h
      cases p with
      | ret v =>
        obtain ⟨_, hw⟩ := someInv h
        subst hw
        exact presRefl
      | throwE =>
        obtain ⟨_, hw⟩ := someInv h
        subst hw
        exact presRefl
      | readS s k =>
        have h' : runProg n (k (readSig w s).1) (readSig w s).2
            = some (r, w') := h
        exact (pres_readSig).trans (ihP _ _ _ _ h')
      | writeS s v k =>
        have h' : andThen (writeSig n w s v) (fun w1 => runProg n k w1)
            = some (r, w') := h
        exact pres_andThen h' (fun r1 w1 hh => ihW _ _ _ _ _ hh)
          (fun w1 r2 w2 hh => ihP _ _ _ _ hh)
      | domOp op k =>
        have h' : andThenE (applyDom w op) (fun w1 => runProg n k w1)
            = some (r, w') := h
        exact pres_andThenE h' (fun r1 w1 hh => pres_applyDom hh)
          (fun w1 r2 w2 hh => ihP _ _ _ _ hh)
    · intro w s v r w' h
      have h' : notifyFrom n s 0 (storeVal w s v) = some (r, w') := h
      exact (pres_storeVal).trans (ihN _ _ _ _ _ h')
    · intro s i w r w' h
      have h0 : notifyFrom (n + 1) s i w
          = (if hh : i < (obsAt w s).length then
              andThen (runOb n ((obsAt w s).get ⟨i, hh⟩) w)
                (fun w1 => notifyFrom n s (i + 1) w1)
            else some (.ok (), w)) := rfl
      rw [h0] at h
      by_cases hi : i < (obsAt w s).length
      · rw [dif_pos hi] at h
        exact pres_andThen h (fun r1 w1 hh => ihO _ _ _ _ hh)
          (fun w1 r2 w2 hh => ihN _ _ _ _ _ hh)
      · rw [dif_neg hi] at h
        obtain ⟨_, hw⟩ := someInv h
        subst hw
        exact presRefl
    · intro o w r w' h
      cases o with
      | noop e =>
        obtain ⟨_, hw⟩ := someInv h
        subst hw
        exact presRefl
      | compute e =>
        have h' : (match invokeCleanup e (effAt w e).cleanup w with
          | .error () => some ((.error () : Except Unit Unit), setPtr w none)
          | .ok w1 =>
            finishCompute e (runProg n (effAt w e).fn
              (addTrace (setPtr w1 (some (if (effAt w e).disposed then
                Ob.noop e else Ob.compute e))) (.fnStart e))))
            = some (r, w') := h
        rcases hic : invokeCleanup e (effAt w e).cleanup w with u | w1 <;>
          rw [hic] at h'
        · cases u
          obtain ⟨_, hw⟩ := someInv h'
          subst hw
          exact pres_setPtr
        · have hw1 : Pres w w1 := pres_invokeCleanup hic
          have hw2 : Pres w1 (addTrace (setPtr w1 (some (if (effAt w e).disposed
              then Ob.noop e else Ob.compute e))) (.fnStart e)) :=
            (pres_setPtr).trans pres_addTrace
          exact pres_finishCompute h'
            (fun r1 w3 hh => (hw1.trans hw2).trans (ihP _ _ _ _ hh))

theorem pres_runProg {fuel : Nat} {p : Prog} {w : World} {r : Except Unit Val}
    {w' : World} (h : runProg fuel p w = some (r, w')) : Pres w w' :=
  (pres_run fuel).1 _ _ _ _ h

theorem pres_writeSig {fuel : Nat} {w : World} {s : SigId} {v : Int}
    {r : Except Unit Unit} {w' : World}
    (h : writeSig fuel w s v = some (r, w')) : Pres w w' :=
  (pres_run fuel).2.1 _ _ _ _ _ h

theorem pres_notifyFrom {fuel : Nat} {s : SigId} {i : Nat} {w : World}
    {r : Except Unit Unit} {w' : World}
    (h : notifyFrom fuel s i w = some (r, w')) : Pres w w' :=
  (pres_run fuel).2.2.1 _ _ _ _ _ h

theorem pres_runOb {fuel : Nat} {o : Ob} {w : World} {r : Except Unit Unit}
    {w' : World} (h : runOb fuel o w = some (r, w')) : Pres w w' :=
  (pres_run fuel).2.2.2 _ _ _ _ h

/-! ### The notification loop invokes every registered observer -/

theorem count_le_of_prefix {l l' : List Ev} (h : l <+: l') (a : Ev) :
    l.count a ≤ l'.count a := by
  obtain ⟨t, rfl⟩ := h
  simp [List.count_append]

/-- Inversion of `andThen` on a successful run. -/
theorem andThen_ok {α : Type} {step : Option (Except Unit Unit × World)}
    {k : World → Option (Except Unit α × World)} {a : α} {w' : World}
    (h : andThen step k = some (.ok a, w')) :
    ∃ w1, step = some (.ok (), w1) ∧ k w1 = some (.ok a, w') := by
  rcases hstep : step with _ | ⟨r1, w1⟩ <;> rw [hstep] at h
  · exact Option.noConfusion h
  · rcases r1 with u | u <;> cases u
    · simp only [andThen] at h
      obtain ⟨he, _⟩ := someInv h
      exact Except.noConfusion he
    · simp only [andThen] at h
      exact ⟨w1, rfl, h⟩

/-- Inversion of `finishCompute` on a successful run. -/
theorem finishCompute_ok {e : EffId} {x : Option (Except Unit Val × World)}
    {w' : World} (h : finishCompute e x = some (.ok (), w')) :
    ∃ r3 w3, x = some (.ok r3, w3) ∧ w' = setPtr (setEffCleanup w3 e r3) none := by
  rcases hx : x with _ | ⟨r1, w3⟩ <;> rw [hx] at h
  · exact Option.noConfusion h
  · rcases r1 with u | r3
    · cases u
      obtain ⟨he, _⟩ := someInv h
      exact Except.noConfusion he
    · obtain ⟨_, hw⟩ := someInv h
      exact ⟨r3, w3, rfl, hw.symm⟩

/-- A successful run of a `compute` closure always executes the callback:
the `fnStart` count strictly increases. -/
theorem runOb_starts {fuel : Nat} {e : EffId} {w w' : World}
    (h : runOb fuel (.compute e) w = some (.ok (), w')) :
    w.trace.count (.fnStart e) < w'.trace.count (.fnStart e) := by
  cases fuel with
  | zero => exact Option.noConfusion h
  | succ n =>
    have h' : (match invokeCleanup e (effAt w e).cleanup w with
      | .error () => some ((.error () : Except Unit Unit), setPtr w none)
      | .ok w1 =>
        finishCompute e (runProg n (effAt w e).fn
          (addTrace (setPtr w1 (some (if (effAt w e).disposed then
            Ob.noop e else Ob.compute e))) (.fnStart e))))
        = some (.ok (), w') := h
    rcases hic : invokeCleanup e (effAt w e).cleanup w with u | w1 <;>
      rw [hic] at h'
    · cases u
      obtain ⟨he, _⟩ := someInv h'
      exact Except.noConfusion he
    · obtain ⟨r3, w3, hrp, hw⟩ := finishCompute_ok h'
      subst hw
      have h1 : w.trace.count (.fnStart e) ≤ w1.trace.count (.fnStart e) :=
        count_le_of_prefix (pres_invokeCleanup hic).traceMono _
      have h2 : (addTrace (setPtr w1 (some (if (effAt w e).disposed then
          Ob.noop e else Ob.compute e))) (.fnStart e)).trace.count (.fnStart e)
          = w1.trace.count (.fnStart e) + 1 := by
        simp [addTrace, setPtr, List.count_append]
      have h3 := count_le_of_prefix (pres_runProg hrp).traceMono (.fnStart e)
      rw [h2] at h3
      have : (setPtr (setEffCleanup w3 e r3) none).trace
          = w3.trace := rfl
      rw [this]
      omega

/-- `o` was demonstrably invoked between `w` and `w'`: if it is a `compute`
closure, its callback ran at least once more. -/
def obInv (o : Ob) (w w' : World) : Prop :=
  ∀ e, o = Ob.compute e →
    w.trace.count (.fnStart e) < w'.trace.count (.fnStart e)

theorem mem_drop_of_prefix {l l' : List Ob} (h : l <+: l') {n : Nat} {x : Ob}
    (hx : x ∈ l.drop n) : x ∈ l'.drop n := by
  obtain ⟨t, rfl⟩ := h
  have hn : n ≤ l.length := by
    by_contra hc
    rw [List.drop_eq_nil_of_le (by omega)] at hx
    exact absurd hx (List.not_mem_nil x)
  rw [List.drop_append_of_le_length hn]
  exact List.mem_append_left _ hx

/-- A successful notification loop starting at index `i` invokes every
observer present in the set from index `i` on when the loop started
(the live JavaScript `Set` iteration may additionally visit observers added
during the loop). -/
theorem notify_invokes : ∀ fuel s i (w w' : World),
    notifyFrom fuel s i w = some (.ok (), w') →
    ∀ o ∈ (obsAt w s).drop i, obInv o w w' := by
  intro fuel
  induction fuel with
  | zero => intro s i w w' h; exact Option.noConfusion h
  | succ n ih =>
    intro s i w w' h o ho
    have h0 : notifyFrom (n + 1) s i w
        = (if hh : i < (obsAt w s).length then
            andThen (runOb n ((obsAt w s).get ⟨i, hh⟩) w)
              (fun w1 => notifyFrom n s (i + 1) w1)
          else some (.ok (), w)) := rfl
    rw [h0] at h
    by_cases hi : i < (obsAt w s).length
    · rw [dif_pos hi] at h
      obtain ⟨w1, hOb, hN⟩ := andThen_ok h
      have hdrop : (obsAt w s).drop i
          = (obsAt w s).get ⟨i, hi⟩ :: (obsAt w s).drop (i + 1) := by
        simpa using List.drop_eq_getElem_cons hi
      rw [hdrop] at ho
      rcases List.mem_cons.mp ho with hhead | htail
      · subst hhead
        intro e he
        rw [he] at hOb
        have hlt := runOb_starts hOb
        have hle := count_le_of_prefix (pres_notifyFrom hN).traceMono
          (.fnStart e)
        omega
      · have htail' : o ∈ (obsAt w1 s).drop (i + 1) :=
          mem_drop_of_prefix ((pres_runOb hOb).obsMono s) htail
        intro e he
        have hle := count_le_of_prefix (pres_runOb hOb).traceMono (.fnStart e)
        have := ih s (i + 1) w1 w' hN o htail' e he
        omega
    · rw [dif_neg hi] at h
      rw [List.drop_eq_nil_of_le (by omega)] at ho
      exact absurd ho (List.not_mem_nil o)

/-! ### Small facts about the primitive operations -/

theorem obsAt_storeVal {w : World} {s : SigId} {v : Int} {j : SigId} :
    obsAt (storeVal w s v) j = obsAt w j := by
  unfold storeVal
  show (sigAt (sigUpd w s { sigAt w s with value := v }) j).observers
    = (sigAt w j).observers
  rw [sigAt_set]
  split
  · rename_i hc
    rw [hc.1]
  · rfl

theorem finishCompute_ptr {e : EffId} {x : Option (Except Unit Val × World)}
    {r : Except Unit Unit} {w' : World} (h : finishCompute e x = some (r, w')) :
    w'.observerPtr = none := by
  rcases hx : x with _ | ⟨r1, w3⟩ <;> rw [hx] at h
  · exact Option.noConfusion h
  · rcases r1 with u | r3
    · cases u
      obtain ⟨_, hw⟩ := someInv h
      subst hw
      rfl
    · obtain ⟨_, hw⟩ := someInv h
      subst hw
      rfl

/-! ### Concrete worlds used by the witnesses and counterexamples -/

/-- A world mid-tracking: the pointer holds the first effect's `compute`. -/
def c1ReadW : World :=
  { w0 with sigs := [⟨1, []⟩], observerPtr := some (.compute 0) }

/-- A world with one signal observed by one effect that just reads it. -/
def c1WriteW : World :=
  { w0 with sigs := [⟨0, [.compute 0]⟩],
            effs := [⟨.readS 0 (fun _ => .ret (.prim .undef)),
              .prim .undef, false⟩] }

/-- One stored signal, read outside any effect. -/
def c4W : World := { w0 with sigs := [⟨7, []⟩] }

/-- One effect whose callback throws. -/
def c9W : World := { w0 with effs := [⟨.throwE, .prim .undef, false⟩] }

/-- Signal 0 (value 0) is observed by effect 0, whose callback reads it and,
when the value is non-zero, writes 0 back; effect 1 just reads signal 0. -/
def c10W : World :=
  { w0 with
    sigs := [⟨0, [.compute 0, .compute 1]⟩],
    effs := [⟨.readS 0 (fun v => if v = 0 then .ret (.prim .undef)
                else .writeS 0 0 (.ret (.prim .undef))), .prim .undef, false⟩,
             ⟨.readS 0 (fun _ => .ret (.prim .undef)), .prim .undef, false⟩] }

/-- Signal 0 is observed by an effect that writes 99 into signal 1. -/
def c8W : World :=
  { w0 with
    sigs := [⟨0, [.compute 0]⟩, ⟨10, []⟩],
    effs := [⟨.writeS 1 99 (.ret (.prim .undef)), .prim .undef, false⟩] }

/-! ### Claims -/

/-- C1: an effect is registered as an observer of a signal exactly by the
signal's accessor while the tracking pointer holds it, and a setter call
that returns normally has invoked, before returning, the callback of every
`compute` closure registered in the signal's observer set at the time of the
call (in particular every effect that read the signal since its last run,
since registrations are never removed). -/
theorem claim_c1 :
    (∀ (w : World) (s : SigId) (o : Ob), w.observerPtr = some o →
      s < w.sigs.length →
      obsAt (readSig w s).2 s = addOb (obsAt w s) o) ∧
    (∀ (fuel : Nat) (w : World) (s : SigId) (v : Int) (w' : World),
      writeSig fuel w s v = some (.ok (), w') →
      ∀ e, Ob.compute e ∈ obsAt w s →
        w.trace.count (.fnStart e) < w'.trace.count (.fnStart e)) := by
  constructor
  · intro w s o hp hs
    unfold readSig
    rw [hp]
    show (sigAt (sigUpd w s { sigAt w s with
      observers := addOb (sigAt w s).observers o }) s).observers
      = addOb (sigAt w s).observers o
    rw [sigAt_set, if_pos ⟨rfl, hs⟩]
  · intro fuel w s v w' h e he
    cases fuel with
    | zero => exact Option.noConfusion h
    | succ n =>
      have h' : notifyFrom n s 0 (storeVal w s v) = some (.ok (), w') := h
      have hm : Ob.compute e ∈ (obsAt (storeVal w s v) s).drop 0 := by
        rw [List.drop_zero, obsAt_storeVal]
        exact he
      have := notify_invokes n s 0 _ w' h' (.compute e) hm e rfl
      exact this

/-- Witness for C1 at concrete inputs. -/
theorem claim_c1_witness :
    (c1ReadW.observerPtr = some (.compute 0) ∧ 0 < c1ReadW.sigs.length ∧
      obsAt (readSig c1ReadW 0).2 0 = addOb (obsAt c1ReadW 0) (.compute 0)) ∧
    (writeSig 10 c1WriteW 0 5
        = some (.ok (), outWorld c1WriteW (writeSig 10 c1WriteW 0 5)) ∧
      Ob.compute 0 ∈ obsAt c1WriteW 0 ∧
      c1WriteW.trace.count (.fnStart 0)
        < (outWorld c1WriteW (writeSig 10 c1WriteW 0 5)).trace.count
            (.fnStart 0)) :=
  ⟨⟨rfl, by decide, claim_c1.1 c1ReadW 0 (.compute 0) rfl (by decide)⟩,
   ⟨rfl, by decide, claim_c1.2 10 c1WriteW 0 5 _ rfl 0 (by decide)⟩⟩

/-- C2 (code bug): the disposer does not stop the effect.  It reassigns the
local `compute` variable, but the original closure stays in the signal's
observer set and still calls `fn`.  Concretely: an effect reads signal 0,
is disposed, and a later write to signal 0 still re-executes its callback
(`fnStart 0` appears after `dispose 0`). -/
theorem claim_c2 :
    traceOf (runTop 30
      [.newSig 5, .newEff (.readS 0 (fun _ => .ret (.prim .undef))),
       .disp 0, .writeTop 0 6] w0)
      = some [.fnStart 0, .sigRead 0 5, .dispose 0, .fnStart 0,
              .sigRead 0 6] := by
  decide

/-- C3 (code bug): a returned cleanup is not invoked exactly once per
disposal/re-run.  The disposer does not clear `cleanup`, so (a) calling the
disposer twice runs the same cleanup twice, and (b) after disposal a write
to an observed signal runs the same cleanup again before re-running the
callback. -/
theorem claim_c3 :
    traceOf (runTop 30 [.newEff (.ret (.fnv 7)), .disp 0, .disp 0] w0)
      = some [.fnStart 0, .dispose 0, .cleanupRun 0 7, .dispose 0,
              .cleanupRun 0 7] ∧
    traceOf (runTop 30
      [.newSig 0, .newEff (.readS 0 (fun _ => .ret (.fnv 7))),
       .disp 0, .writeTop 0 1] w0)
      = some [.fnStart 0, .sigRead 0 0, .dispose 0, .cleanupRun 0 7,
              .cleanupRun 0 7, .fnStart 0, .sigRead 0 1] := by
  constructor
  · decide
  · decide

/-- C4: reading a signal while the tracking pointer is `null` returns the
stored value and leaves every signal cell — in particular every observer
set — unchanged. -/
theorem claim_c4 :
    ∀ (w : World) (s : SigId), w.observerPtr = none →
      (readSig w s).1 = (sigAt w s).value ∧ (readSig w s).2.sigs = w.sigs := by
  intro w s h
  unfold readSig
  rw [h]
  exact ⟨rfl, rfl⟩

/-- Witness for C4 at a concrete input. -/
theorem claim_c4_witness :
    c4W.observerPtr = none ∧ (readSig c4W 0).1 = (sigAt c4W 0).value ∧
      (readSig c4W 0).2.sigs = c4W.sigs :=
  ⟨rfl, (claim_c4 c4W 0 rfl).1, (claim_c4 c4W 0 rfl).2⟩

/-- C9: after every execution of a `compute` closure — normal or thrown —
the tracking pointer is `null` (the `finally`), and with a `null` pointer a
signal read registers nothing. -/
theorem claim_c9 :
    (∀ (fuel : Nat) (e : EffId) (w : World) (r : Except Unit Unit)
      (w' : World), runOb fuel (.compute e) w = some (r, w') →
        w'.observerPtr = none) ∧
    (∀ (w : World) (s : SigId), w.observerPtr = none →
      (readSig w s).2.sigs = w.sigs) := by
  constructor
  · intro fuel e w r w' h
    cases fuel with
    | zero => exact Option.noConfusion h
    | succ n =>
      have h' : (match invokeCleanup e (effAt w e).cleanup w with
        | .error () => some ((.error () : Except Unit Unit), setPtr w none)
        | .ok w1 =>
          finishCompute e (runProg n (effAt w e).fn
            (addTrace (setPtr w1 (some (if (effAt w e).disposed then
              Ob.noop e else Ob.compute e))) (.fnStart e))))
          = some (r, w') := h
      rcases hic : invokeCleanup e (effAt w e).cleanup w with u | w1 <;>
        rw [hic] at h'
      · cases u
        obtain ⟨_, hw⟩ := someInv h'
        subst hw
        rfl
      · exact finishCompute_ptr h'
  · intro w s h
    unfold readSig
    rw [h]
    rfl

/-- Witness for C9: a throwing callback still resets the pointer. -/
theorem claim_c9_witness :
    (runOb 5 (.compute 0) c9W
        = some (.error (), outWorld c9W (runOb 5 (.compute 0) c9W)) ∧
      (outWorld c9W (runOb 5 (.compute 0) c9W)).observerPtr = none) ∧
    (c4W.observerPtr = none ∧ (readSig c4W 0).2.sigs = c4W.sigs) :=
  ⟨⟨rfl, claim_c9.1 5 0 c9W _ _ rfl⟩, ⟨rfl, claim_c9.2 c4W 0 rfl⟩⟩

/-- C10 as stated is false: an accessor call made during observer
notification can return the pre-write value when a re-entrant write restores
it.  Signal 0 holds 0; writing 1 triggers effect 0, which writes 0 back;
the later reads during the same notification (by effects 0 and 1) return 0,
the old value, not the newly written 1. -/
theorem claim_c10_counterexample :
    (sigAt c10W 0).value = 0 ∧
    traceOf (writeSig 20 c10W 0 1)
      = some [.fnStart 0, .sigRead 0 1, .fnStart 0, .sigRead 0 0,
              .fnStart 1, .sigRead 0 0, .fnStart 1, .sigRead 0 0] ∧
    Ev.sigRead 0 0
      ∈ [Ev.fnStart 0, .sigRead 0 1, .fnStart 0, .sigRead 0 0,
         .fnStart 1, .sigRead 0 0, .fnStart 1, .sigRead 0 0] ∧
    (0 : Int) ≠ 1 := by
  refine ⟨rfl, by decide, by decide, by decide⟩

/-- C10 (amended): the setter stores the new value before any observer runs,
and every accessor call returns the currently stored value; during
notification that is the most recent write — this setter's value unless a
re-entrant write during notification overwrote it. -/
theorem claim_c10 :
    (∀ (fuel : Nat) (w : World) (s : SigId) (v : Int),
      writeSig (fuel + 1) w s v = notifyFrom fuel s 0 (storeVal w s v)) ∧
    (∀ (w : World) (s : SigId) (v : Int), s < w.sigs.length →
      (sigAt (storeVal w s v) s).value = v) ∧
    (∀ (w : World) (s : SigId), (readSig w s).1 = (sigAt w s).value) := by
  refine ⟨fun _ _ _ _ => rfl, ?_, fun _ _ => rfl⟩
  intro w s v hs
  unfold storeVal
  rw [sigAt_set, if_pos ⟨rfl, hs⟩]

/-- Witness for C10 (amended) at concrete inputs. -/
theorem claim_c10_witness :
    (writeSig 20 c10W 0 1 = notifyFrom 19 0 0 (storeVal c10W 0 1)) ∧
    (0 < c10W.sigs.length ∧ (sigAt (storeVal c10W 0 1) 0).value = 1) ∧
    ((readSig c4W 0).1 = (sigAt c4W 0).value) :=
  ⟨claim_c10.1 19 c10W 0 1, ⟨by decide, claim_c10.2.1 c10W 0 1 (by decide)⟩,
   claim_c10.2.2 c4W 0⟩

/-- C8 as stated is false: writing one signal can modify another signal's
stored value, because notification runs arbitrary effect callbacks.  Here
signal 1 holds 10, and writing 1 into signal 0 runs an observer that stores
99 into signal 1. -/
theorem claim_c8_counterexample :
    (sigAt c8W 1).value = 10 ∧
    sigValOut (writeSig 20 c8W 0 1) 1 = some 99 ∧ (99 : Int) ≠ 10 := by
  refine ⟨rfl, by decide, by decide⟩

/-- C8 (amended): every `signal` call allocates a fresh cell with an empty
observer set, leaving existing signals untouched; the accessor mutates at
most its own cell; the setter's own store mutates only its own cell's value;
any other change during a write happens inside observer callbacks run by the
notification loop. -/
theorem claim_c8 :
    (∀ (w : World) (v : Int),
      (newSignalW w v).2.sigs = w.sigs ++ [⟨v, []⟩]) ∧
    (∀ (w : World) (s j : SigId), j ≠ s →
      sigAt (readSig w s).2 j = sigAt w j) ∧
    (∀ (w : World) (s : SigId) (v : Int) (j : SigId), j ≠ s →
      sigAt (storeVal w s v) j = sigAt w j) ∧
    (∀ (fuel : Nat) (w : World) (s : SigId) (v : Int),
      writeSig (fuel + 1) w s v = notifyFrom fuel s 0 (storeVal w s v)) := by
  refine ⟨fun _ _ => rfl, ?_, ?_, fun _ _ _ _ => rfl⟩
  · intro w s j hj
    unfold readSig
    cases hp : w.observerPtr with
    | none => rfl
    | some o =>
      show sigAt (sigUpd w s { sigAt w s with
        observers := addOb (sigAt w s).observers o }) j = sigAt w j
      rw [sigAt_set, if_neg (fun hc => hj hc.1)]
  · intro w s v j hj
    unfold storeVal
    rw [sigAt_set, if_neg (fun hc => hj hc.1)]

/-- Witness for C8 (amended) at concrete inputs. -/
theorem claim_c8_witness :
    ((newSignalW c8W 3).2.sigs = c8W.sigs ++ [⟨3, []⟩]) ∧
    ((1 : SigId) ≠ 0 ∧ sigAt (readSig c1ReadW 0).2 1 = sigAt c1ReadW 1) ∧
    ((1 : SigId) ≠ 0 ∧ sigAt (storeVal c8W 0 5) 1 = sigAt c8W 1) ∧
    (writeSig 8 c8W 0 5 = notifyFrom 7 0 0 (storeVal c8W 0 5)) :=
  ⟨claim_c8.1 c8W 3,
   ⟨by decide, claim_c8.2.1 c1ReadW 0 1 (by decide)⟩,
   ⟨by decide, claim_c8.2.2.1 c8W 0 5 1 (by decide)⟩,
   claim_c8.2.2.2 7 c8W 0 5⟩

/-- An element in an SVG namespace on which every `setAttributeNS` call
throws. -/
def c6W : World :=
  { w0 with elems := [⟨"svg", some svgNS, [], []⟩],
            nsSetFails := fun _ _ => true }

/-- C6: when `setOrRemoveAttr` sets an attribute (the value is none of
`null` / `undefined` / `false` / `""`) and the namespaced `setAttributeNS`
throws, the exception is swallowed and the set is retried without a
namespace via `setAttribute` with the same key and the same stringified
value `attrStr key v` (the very string that was passed to
`setAttributeNS`). -/
theorem claim_c6 :
    ∀ (w : World) (ns : Option String) (el : ElemId) (key : String) (v : Val),
      removesAttr v = false →
      w.nsSetFails (computeAttrNS ns (elemAt w el).namespaceURI key) key
        = true →
      w.plainSetFails key = false →
      setOrRemoveAttrD w ns el key v
        = (.ok (), pushCalls w el [.setAttribute key (attrStr key v)]) := by
  intro w ns el key v h1 h2 h3
  unfold setOrRemoveAttrD setOrRemoveCalls
  simp [h1, h2, h3]

/-- Witness for C6 at a concrete input: `stroke-width: 2` on an SVG element
whose namespaced set throws falls back to `setAttribute "stroke-width" "2"`. -/
theorem claim_c6_witness :
    removesAttr (.prim (.num 2)) = false ∧
    c6W.nsSetFails
      (computeAttrNS (some svgNS) (elemAt c6W 0).namespaceURI "stroke-width")
      "stroke-width" = true ∧
    c6W.plainSetFails "stroke-width" = false ∧
    attrStr "stroke-width" (.prim (.num 2)) = "2" ∧
    setOrRemoveAttrD c6W (some svgNS) 0 "stroke-width" (.prim (.num 2))
      = (.ok (), pushCalls c6W 0
          [.setAttribute "stroke-width" (attrStr "stroke-width"
            (.prim (.num 2)))]) :=
  ⟨by decide, by decide, by decide, by decide,
   claim_c6 c6W (some svgNS) 0 "stroke-width" (.prim (.num 2))
     (by decide) (by decide) (by decide)⟩

/-- C7: a prop whose key starts with `on` and whose value is not a function
logs a `console.warn` and is skipped entirely: the world is unchanged except
for the warning — no listener is attached, no attribute call is made, and no
effect is created for that key. -/
theorem claim_c7 :
    ∀ (fuel : Nat) (el : ElemId) (key : String) (p : Prim) (w : World),
      strStarts key "on" = true →
      applyProp fuel el key (.prim p) w
          = some (.ok (), addTrace w (.warned key)) ∧
        (addTrace w (.warned key)).elems = w.elems ∧
        (addTrace w (.warned key)).effs = w.effs := by
  intro fuel el key p w h
  refine ⟨?_, rfl, rfl⟩
  unfold applyProp
  rw [if_pos h]

/-- Witness for C7 at a concrete input: `onclick: 3`. -/
theorem claim_c7_witness :
    (strStarts "onclick" "on" = true) ∧
    applyProp 5 0 "onclick" (.prim (.num 3)) w0
      = some (.ok (), addTrace w0 (.warned "onclick")) ∧
    (addTrace w0 (.warned "onclick")).elems = w0.elems ∧
    (addTrace w0 (.warned "onclick")).effs = w0.effs :=
  ⟨by decide, claim_c7 5 0 "onclick" (.num 3) w0 (by decide)⟩

/-! ### Characterization of the effects wired by `createElement` -/

theorem toUnit_ok {α : Type} {x : Option (Except Unit α × World)} {w' : World}
    (h : toUnit x = some (.ok (), w')) : ∃ a, x = some (.ok a, w') := by
  rcases hx : x with _ | ⟨r1, w1⟩ <;> rw [hx] at h
  · exact Option.noConfusion h
  · rcases r1 with u | a
    · cases u
      simp only [toUnit] at h
      obtain ⟨he, _⟩ := someInv h
      exact Except.noConfusion he
    · simp only [toUnit] at h
      obtain ⟨_, hw⟩ := someInv h
      subst hw
      exact ⟨a, rfl⟩

theorem getD_concat_len {β : Type} (l : List β) (E d : β) :
    (l ++ [E]).getD l.length d = E := by
  induction l with
  | nil => rfl
  | cons x xs ih => simpa using ih

theorem nsURI_of_shape {w w' : World}
    (h : w'.elems.map elemShape = w.elems.map elemShape) (el : ElemId) :
    (elemAt w' el).namespaceURI = (elemAt w el).namespaceURI := by
  have h1 : elemShape (elemAt w' el) = elemShape (elemAt w el) := by
    have h2 := congrArg (fun l => l.getD el (elemShape defaultElem)) h
    simp only at h2
    rwa [List.getD_map, List.getD_map] at h2
  exact congrArg Prod.snd h1

theorem newEffect_char {fuel : Nat} {p : Prog} {w : World} {a : EffId}
    {w' : World} (h : newEffect fuel p w = some (.ok a, w')) :
    w'.effs.map EffSt.fn = w.effs.map EffSt.fn ++ [p] ∧
    w'.texts.length = w.texts.length ∧
    w'.elems.map elemShape = w.elems.map elemShape := by
  have h' : andThen (runOb fuel (.compute w.effs.length)
      { w with effs := w.effs ++ [⟨p, .prim .undef, false⟩] })
      (fun w2 => some (.ok w.effs.length, w2)) = some (.ok a, w') := h
  obtain ⟨w2, hOb, hk⟩ := andThen_ok h'
  obtain ⟨_, hw⟩ := someInv hk
  subst hw
  have P := pres_runOb hOb
  refine ⟨?_, P.textsLen, P.elemsShape⟩
  rw [P.fnsEq]
  simp

theorem applyProp_char {fuel : Nat} {el : ElemId} {key : String}
    {v : PropVal} {w w' : World}
    (h : applyProp fuel el key v w = some (.ok (), w')) :
    w'.effs.map EffSt.fn = w.effs.map EffSt.fn ++
      (if strStarts key "on" then []
       else [attrProg (if key = "xmlns" then none
         else (elemAt w el).namespaceURI) el key v]) ∧
    w'.texts.length = w.texts.length ∧
    w'.elems.map elemShape = w.elems.map elemShape := by
  unfold applyProp at h
  by_cases hon : strStarts key "on"
  · rw [if_pos hon] at h
    rw [if_pos hon]
    cases v with
    | prim p =>
      obtain ⟨_, hw⟩ := someInv h
      subst hw
      exact ⟨by rw [List.append_nil]; rfl, rfl, rfl⟩
    | node n =>
      obtain ⟨_, hw⟩ := someInv h
      subst hw
      exact ⟨by rw [List.append_nil]; rfl, rfl, rfl⟩
    | arr cs =>
      obtain ⟨_, hw⟩ := someInv h
      subst hw
      exact ⟨by rw [List.append_nil]; rfl, rfl, rfl⟩
    | func f =>
      obtain ⟨_, hw⟩ := someInv h
      subst hw
      exact ⟨by rw [List.append_nil]; rfl, rfl, map_shape_elemUpd (fun _ => rfl)⟩
  · rw [if_neg hon] at h
    rw [if_neg hon]
    obtain ⟨a, hne⟩ := toUnit_ok h
    exact newEffect_char hne

theorem specPropFns_cons {elNS : Option String} {el : ElemId} {key : String}
    {v : PropVal} {ps : List (String × PropVal)} :
    specPropFns elNS el ((key, v) :: ps)
      = (if strStarts key "on" then []
         else [attrProg (if key = "xmlns" then none else elNS) el key v])
        ++ specPropFns elNS el ps := by
  by_cases hon : strStarts key "on" <;>
    simp [specPropFns, List.filterMap_cons, hon]

theorem applyProps_char : ∀ (ps : List (String × PropVal)) (fuel : Nat)
    (el : ElemId) (w w' : World),
    applyProps fuel el ps w = some (.ok (), w') →
    w'.effs.map EffSt.fn = w.effs.map EffSt.fn
        ++ specPropFns (elemAt w el).namespaceURI el ps ∧
    w'.texts.length = w.texts.length ∧
    w'.elems.map elemShape = w.elems.map elemShape := by
  intro ps
  induction ps with
  | nil =>
    intro fuel el w w' h
    obtain ⟨_, hw⟩ := someInv h
    subst hw
    exact ⟨by simp [specPropFns], rfl, rfl⟩
  | cons kv rest ih =>
    intro fuel el w w' h
    obtain ⟨kk, vv⟩ := kv
    have h' : andThen (applyProp fuel el kk vv w)
        (fun w1 => applyProps fuel el rest w1) = some (.ok (), w') := h
    obtain ⟨w1, hp, hrest⟩ := andThen_ok h'
    obtain ⟨e1, t1, s1⟩ := applyProp_char hp
    obtain ⟨e2, t2, s2⟩ := ih fuel el w1 w' hrest
    have hns : (elemAt w1 el).namespaceURI = (elemAt w el).namespaceURI :=
      nsURI_of_shape s1 el
    refine ⟨?_, t2.trans t1, s2.trans s1⟩
    rw [e2, e1, hns, specPropFns_cons, List.append_assoc]

mutual

theorem addChild_char : ∀ (c : Child) (fuel : Nat) (parent : ElemId)
    (w w' : World), addChild fuel parent c w = some (.ok (), w') →
    w'.effs.map EffSt.fn = w.effs.map EffSt.fn
        ++ (specChildAccs w.texts.length c).1.map
            (fun tp => textProg tp.1 tp.2) ∧
    w'.texts.length = (specChildAccs w.texts.length c).2 ∧
    w'.elems.map elemShape = w.elems.map elemShape
  | .arr cs, fuel, parent, w, w', h => by
    have h' : addKids fuel parent cs w = some (.ok (), w') := h
    exact addKids_char cs fuel parent w w' h'
  | .node n, fuel, parent, w, w', h => by
    obtain ⟨_, hw⟩ := someInv h
    subst hw
    refine ⟨?_, rfl, map_shape_elemUpd (fun _ => rfl)⟩
    have hnil : (specChildAccs w.texts.length (JsVal.node n)).1.map
        (fun tp => textProg tp.1 tp.2) = [] := rfl
    rw [hnil, List.append_nil]
    rfl
  | .prim (.str s), fuel, parent, w, w', h => by
    obtain ⟨_, hw⟩ := someInv h
    subst hw
    refine ⟨?_, ?_, map_shape_elemUpd (fun _ => rfl)⟩
    · have hnil : (specChildAccs w.texts.length
          (JsVal.prim (.str s))).1.map
          (fun tp => textProg tp.1 tp.2) = [] := rfl
      rw [hnil, List.append_nil]
      rfl
    show ({ w with texts := w.texts ++ [s] }).texts.length = w.texts.length + 1
    simp
  | .prim (.num n), fuel, parent, w, w', h => by
    obtain ⟨_, hw⟩ := someInv h
    subst hw
    refine ⟨?_, ?_, map_shape_elemUpd (fun _ => rfl)⟩
    · have hnil : (specChildAccs w.texts.length
          (JsVal.prim (.num n))).1.map
          (fun tp => textProg tp.1 tp.2) = [] := rfl
      rw [hnil, List.append_nil]
      rfl
    show ({ w with texts := w.texts ++ [toString n] }).texts.length
      = w.texts.length + 1
    simp
  | .prim (.bool b), fuel, parent, w, w', h => by
    obtain ⟨_, hw⟩ := someInv h
    subst hw
    refine ⟨?_, rfl, rfl⟩
    have hnil : (specChildAccs w.texts.length
        (JsVal.prim (.bool b))).1.map
        (fun tp => textProg tp.1 tp.2) = [] := rfl
    rw [hnil, List.append_nil]
  | .prim .null, fuel, parent, w, w', h => by
    obtain ⟨_, hw⟩ := someInv h
    subst hw
    refine ⟨?_, rfl, rfl⟩
    have hnil : (specChildAccs w.texts.length
        (JsVal.prim .null)).1.map
        (fun tp => textProg tp.1 tp.2) = [] := rfl
    rw [hnil, List.append_nil]
  | .prim .undef, fuel, parent, w, w', h => by
    obtain ⟨_, hw⟩ := someInv h
    subst hw
    refine ⟨?_, rfl, rfl⟩
    have hnil : (specChildAccs w.texts.length
        (JsVal.prim .undef)).1.map
        (fun tp => textProg tp.1 tp.2) = [] := rfl
    rw [hnil, List.append_nil]
  | .func f, fuel, parent, w, w', h => by
    have h' : andThen (toUnit (newEffect fuel (textProg w.texts.length f)
        { w with texts := w.texts ++ [""] }))
        (fun w2 => some (.ok (),
          appendChild w2 parent (.inr w.texts.length))) = some (.ok (), w') := h
    obtain ⟨w2, hstep, hk⟩ := andThen_ok h'
    obtain ⟨a, hne⟩ := toUnit_ok hstep
    obtain ⟨e1, t1, s1⟩ := newEffect_char hne
    obtain ⟨_, hw⟩ := someInv hk
    subst hw
    refine ⟨?_, ?_, ?_⟩
    · show w2.effs.map EffSt.fn = _
      rw [e1]
      rfl
    · show w2.texts.length = w.texts.length + 1
      rw [t1]
      simp
    · have sApp : (appendChild w2 parent (.inr w.texts.length)).elems.map
          elemShape = w2.elems.map elemShape := map_shape_elemUpd (fun _ => rfl)
      exact sApp.trans s1

theorem addKids_char : ∀ (cs : List Child) (fuel : Nat) (parent : ElemId)
    (w w' : World), addKids fuel parent cs w = some (.ok (), w') →
    w'.effs.map EffSt.fn = w.effs.map EffSt.fn
        ++ (specChildrenAccs w.texts.length cs).1.map
            (fun tp => textProg tp.1 tp.2) ∧
    w'.texts.length = (specChildrenAccs w.texts.length cs).2 ∧
    w'.elems.map elemShape = w.elems.map elemShape
  | [], fuel, parent, w, w', h => by
    obtain ⟨_, hw⟩ := someInv h
    subst hw
    refine ⟨?_, rfl, rfl⟩
    have hnil : (specChildrenAccs w.texts.length ([] : List Child)).1.map
        (fun tp => textProg tp.1 tp.2) = [] := rfl
    rw [hnil, List.append_nil]
  | c :: rest, fuel, parent, w, w', h => by
    have h' : andThen (addChild fuel parent c w)
        (fun w1 => addKids fuel parent rest w1) = some (.ok (), w') := h
    obtain ⟨w1, hc, hrest⟩ := andThen_ok h'
    obtain ⟨e1, t1, s1⟩ := addChild_char c fuel parent w w1 hc
    obtain ⟨e2, t2, s2⟩ := addKids_char rest fuel parent w1 w' hrest
    refine ⟨?_, ?_, s2.trans s1⟩
    · show w'.effs.map EffSt.fn = w.effs.map EffSt.fn
        ++ ((specChildAccs w.texts.length c).1
            ++ (specChildrenAccs (specChildAccs w.texts.length c).2 rest).1).map
              (fun tp => textProg tp.1 tp.2)
      rw [e2, e1, t1, List.map_append, List.append_assoc]
    · show w'.texts.length
        = (specChildrenAccs (specChildAccs w.texts.length c).2 rest).2
      rw [t2, t1]

end

mutual

theorem specChildAccs_bounds : ∀ (c : Child) (t0 : Nat),
    t0 ≤ (specChildAccs t0 c).2 ∧
    (∀ x ∈ (specChildAccs t0 c).1, t0 ≤ x.1 ∧ x.1 < (specChildAccs t0 c).2) ∧
    List.Pairwise (fun a b => a.1 < b.1) (specChildAccs t0 c).1
  | .arr cs, t0 => specChildrenAccs_bounds cs t0
  | .node _, t0 => ⟨Nat.le_refl _, by simp [specChildAccs], by
      simp [specChildAccs]⟩
  | .prim (.str _), t0 => ⟨Nat.le_succ _, by simp [specChildAccs], by
      simp [specChildAccs]⟩
  | .prim (.num _), t0 => ⟨Nat.le_succ _, by simp [specChildAccs], by
      simp [specChildAccs]⟩
  | .prim (.bool _), t0 => ⟨Nat.le_refl _, by simp [specChildAccs], by
      simp [specChildAccs]⟩
  | .prim .null, t0 => ⟨Nat.le_refl _, by simp [specChildAccs], by
      simp [specChildAccs]⟩
  | .prim .undef, t0 => ⟨Nat.le_refl _, by simp [specChildAccs], by
      simp [specChildAccs]⟩
  | .func f, t0 => ⟨Nat.le_succ _, by
      intro x hx
      simp only [specChildAccs, List.mem_singleton] at hx
      subst hx
      exact ⟨Nat.le_refl _, Nat.lt_succ_self _⟩, by
      simp [specChildAccs]⟩

theorem specChildrenAccs_bounds : ∀ (cs : List Child) (t0 : Nat),
    t0 ≤ (specChildrenAccs t0 cs).2 ∧
    (∀ x ∈ (specChildrenAccs t0 cs).1,
      t0 ≤ x.1 ∧ x.1 < (specChildrenAccs t0 cs).2) ∧
    List.Pairwise (fun a b => a.1 < b.1) (specChildrenAccs t0 cs).1
  | [], t0 => ⟨Nat.le_refl _, by simp [specChildrenAccs], by
      simp [specChildrenAccs]⟩
  | c :: rest, t0 => by
    obtain ⟨a1, a2, a3⟩ := specChildAccs_bounds c t0
    obtain ⟨b1, b2, b3⟩ :=
      specChildrenAccs_bounds rest (specChildAccs t0 c).2
    refine ⟨Nat.le_trans a1 b1, ?_, ?_⟩
    · intro x hx
      rcases List.mem_append.mp hx with hxa | hxb
      · exact ⟨(a2 x hxa).1, Nat.lt_of_lt_of_le (a2 x hxa).2 b1⟩
      · exact ⟨Nat.le_trans a1 (b2 x hxb).1, (b2 x hxb).2⟩
    · show List.Pairwise _ ((specChildAccs t0 c).1
        ++ (specChildrenAccs (specChildAccs t0 c).2 rest).1)
      rw [List.pairwise_append]
      exact ⟨a3, b3, fun x hxa y hyb =>
        Nat.lt_of_lt_of_le (a2 x hxa).2 (b2 y hyb).1⟩

end

/-- The text-node ids in the spec-side description are strictly increasing:
every accessor child gets its own dedicated text node. -/
theorem specCreateAccs_pairwise : ∀ (first : Option FirstArg)
    (children : List Child) (t0 : Nat),
    List.Pairwise (fun a b => a.1 < b.1)
      (specCreateAccs first children t0).1 := by
  have combine : ∀ (fa : List (Nat × Prog) × Nat) (children : List Child),
      List.Pairwise (fun a b => a.1 < b.1) fa.1 →
      (∀ x ∈ fa.1, x.1 < fa.2) →
      List.Pairwise (fun a b => a.1 < b.1)
        (fa.1 ++ (specChildrenAccs fa.2 children).1) := by
    intro fa children hp hb
    obtain ⟨b1, b2, b3⟩ := specChildrenAccs_bounds children fa.2
    rw [List.pairwise_append]
    exact ⟨hp, b3, fun x hx y hy => Nat.lt_of_lt_of_le (hb x hx) (b2 y hy).1⟩
  intro first children t0
  cases first with
  | none => exact combine ([], t0) children (by simp) (by simp)
  | some fa =>
    cases fa with
    | props ps => exact combine ([], t0) children (by simp) (by simp)
    | child c =>
      show List.Pairwise _
        ((if addableFirst c then specChildAccs t0 c else ([], t0)).1
          ++ (specChildrenAccs
            (if addableFirst c then specChildAccs t0 c else ([], t0)).2
            children).1)
      by_cases hc : addableFirst c
      · rw [if_pos hc]
        have hb := specChildAccs_bounds c t0
        exact combine (specChildAccs t0 c) children hb.2.2
          (fun x hx => (hb.2.1 x hx).2)
      · rw [if_neg hc]
        exact combine ([], t0) children (by simp) (by simp)

/-- Characterization of the props branch of `createElement` for any first
argument: a plain props object contributes one attribute-binding effect per
non-event key, and an array first argument contributes one per index key via
`Object.entries`; anything else contributes nothing. -/
theorem firstProps_char {fuel : Nat} {el : ElemId} {first : Option FirstArg}
    {w1 w2 : World}
    (h : (match first with
      | some (.props ps) => applyProps fuel el ps w1
      | some (.child (.arr cs)) => applyProps fuel el (entriesOfArr cs) w1
      | _ => some (.ok (), w1)) = some (.ok (), w2)) :
    w2.effs.map EffSt.fn = w1.effs.map EffSt.fn
        ++ specFirstPropFns (elemAt w1 el).namespaceURI el first ∧
    w2.texts.length = w1.texts.length ∧
    w2.elems.map elemShape = w1.elems.map elemShape := by
  cases first with
  | none =>
    obtain ⟨_, hw⟩ := someInv h
    subst hw
    refine ⟨?_, rfl, rfl⟩
    have hnil : specFirstPropFns (elemAt w1 el).namespaceURI el none = [] := rfl
    rw [hnil, List.append_nil]
  | some fa =>
    cases fa with
    | props ps => exact applyProps_char ps fuel el w1 w2 h
    | child c =>
      cases c with
      | arr cs => exact applyProps_char (entriesOfArr cs) fuel el w1 w2 h
      | prim p =>
        obtain ⟨_, hw⟩ := someInv h
        subst hw
        refine ⟨?_, rfl, rfl⟩
        have hnil : specFirstPropFns (elemAt w1 el).namespaceURI el
            (some (.child (.prim p))) = [] := rfl
        rw [hnil, List.append_nil]
      | func f =>
        obtain ⟨_, hw⟩ := someInv h
        subst hw
        refine ⟨?_, rfl, rfl⟩
        have hnil : specFirstPropFns (elemAt w1 el).namespaceURI el
            (some (.child (.func f))) = [] := rfl
        rw [hnil, List.append_nil]
      | node n =>
        obtain ⟨_, hw⟩ := someInv h
        subst hw
        refine ⟨?_, rfl, rfl⟩
        have hnil : specFirstPropFns (elemAt w1 el).namespaceURI el
            (some (.child (.node n))) = [] := rfl
        rw [hnil, List.append_nil]

/-- Characterization of the first-argument `add` step of `createElement`:
a truthy child-like first argument is added (contributing its accessor
effects and text nodes), anything else contributes nothing. -/
theorem firstAdd_char {fuel : Nat} {el : ElemId} {first : Option FirstArg}
    {w2 w3 : World}
    (h : (match first with
      | some (.child c) =>
        if addableFirst c then addChild fuel el c w2 else some (.ok (), w2)
      | _ => some (.ok (), w2)) = some (.ok (), w3)) :
    w3.effs.map EffSt.fn = w2.effs.map EffSt.fn
        ++ (specFirstAccs first w2.texts.length).1.map
            (fun tp => textProg tp.1 tp.2) ∧
    w3.texts.length = (specFirstAccs first w2.texts.length).2 ∧
    w3.elems.map elemShape = w2.elems.map elemShape := by
  cases first with
  | none =>
    obtain ⟨_, hw⟩ := someInv h
    subst hw
    refine ⟨?_, rfl, rfl⟩
    have hnil : (specFirstAccs none w2.texts.length).1.map
        (fun (tp : Nat × Prog) => textProg tp.1 tp.2) = [] := rfl
    rw [hnil, List.append_nil]
  | some fa =>
    cases fa with
    | props ps =>
      obtain ⟨_, hw⟩ := someInv h
      subst hw
      refine ⟨?_, rfl, rfl⟩
      have hnil : (specFirstAccs (some (.props ps)) w2.texts.length).1.map
          (fun (tp : Nat × Prog) => textProg tp.1 tp.2) = [] := rfl
      rw [hnil, List.append_nil]
    | child c =>
      show w3.effs.map EffSt.fn = w2.effs.map EffSt.fn
          ++ ((if addableFirst c then specChildAccs w2.texts.length c
              else ([], w2.texts.length)).1.map
            (fun (tp : Nat × Prog) => textProg tp.1 tp.2)) ∧
        w3.texts.length = (if addableFirst c then
          specChildAccs w2.texts.length c else ([], w2.texts.length)).2 ∧
        w3.elems.map elemShape = w2.elems.map elemShape
      have h2 : (if addableFirst c then addChild fuel el c w2
          else some (.ok (), w2)) = some (.ok (), w3) := h
      by_cases hc : addableFirst c
      · rw [if_pos hc] at h2
        rw [if_pos hc]
        exact addChild_char c fuel el w2 w3 h2
      · rw [if_neg hc] at h2
        rw [if_neg hc]
        obtain ⟨_, hw⟩ := someInv h2
        subst hw
        exact ⟨by rw [List.map_nil, List.append_nil], rfl, rfl⟩

/-- The characterization behind C5, with the output world bound by an
equation. -/
theorem createElement_char : ∀ (fuel : Nat) (tag : String)
    (first : Option FirstArg)
    (children : List Child) (w : World) (r : ElemId) (w' : World),
    createElement fuel tag first children w = some (.ok r, w') →
    w'.effs.map EffSt.fn = w.effs.map EffSt.fn
        ++ specCreateFns (some ((namespaceElements tag).getD xhtmlNS))
            w.elems.length first children w.texts.length ∧
    List.Pairwise (fun a b => a.1 < b.1)
      (specCreateAccs first children w.texts.length).1 := by
  intro fuel tag first children w r w' h
  refine ⟨?_, specCreateAccs_pairwise first children w.texts.length⟩
  simp only [createElement] at h
  obtain ⟨w2, hprops, h2⟩ := andThen_ok h
  obtain ⟨eP, tP, sP⟩ := firstProps_char hprops
  have hel : elemAt { w with elems := w.elems
      ++ [⟨tag, some ((namespaceElements tag).getD xhtmlNS), [], []⟩] }
      w.elems.length
      = ⟨tag, some ((namespaceElements tag).getD xhtmlNS), [], []⟩ :=
    getD_concat_len w.elems _ defaultElem
  rw [hel] at eP
  obtain ⟨w3, hfirst, h3⟩ := andThen_ok h2
  obtain ⟨eF, tF, sF⟩ := firstAdd_char hfirst
  obtain ⟨w4, hkids, hfin⟩ := andThen_ok h3
  obtain ⟨_, hw4⟩ := someInv hfin
  subst hw4
  obtain ⟨eK, tK, sK⟩ := addKids_char children fuel w.elems.length w3 w4 hkids
  rw [eK, tF, eF, tP, eP]
  simp only [specCreateFns, specCreateAccs, List.map_append, List.append_assoc]

/-- One signal to be read by the accessor children. -/
def c5W : World := { w0 with sigs := [⟨4, []⟩] }

/-- Props: a static attribute and a malformed event handler. -/
def c5First : Option FirstArg :=
  some (.props [("id", .prim (.str "a")), ("onx", .prim (.num 1))])

/-- Children: a static string and a signal-reading accessor. -/
def c5Kids : List Child :=
  [.prim (.str "hi"), .func (.readS 0 (fun v => .ret (.prim (.num v))))]

/-- C5: `createElement` wires each reactive attribute and each accessor
child inside its own separate `effect` call.  The effect callbacks created
by one completed `createElement` call are exactly: one
`setOrRemoveAttr`-binding callback per non-event prop (in prop order),
followed by one callback per accessor child setting the `textContent` of
that child's own text node to the stringified accessor result — with the
dedicated text nodes pairwise distinct. -/
theorem claim_c5 : ∀ (fuel : Nat) (tag : String) (first : Option FirstArg)
    (children : List Child) (w : World),
    isOkRun (createElement fuel tag first children w) = true →
    (outWorld w (createElement fuel tag first children w)).effs.map EffSt.fn
      = w.effs.map EffSt.fn
        ++ specCreateFns (some ((namespaceElements tag).getD xhtmlNS))
            w.elems.length first children w.texts.length ∧
    List.Pairwise (fun a b => a.1 < b.1)
      (specCreateAccs first children w.texts.length).1 := by
  intro fuel tag first children w hok
  rcases hx : createElement fuel tag first children w with _ | ⟨r1, w1⟩
  · rw [hx] at hok
    exact absurd hok (by simp [isOkRun])
  · rcases r1 with u | r
    · rw [hx] at hok
      exact absurd hok (by simp [isOkRun])
    · simp only [hx, outWorld]
      exact createElement_char fuel tag first children w r w1 hx

/-- An array first argument: its `Object.entries` are wired as index-keyed
attribute bindings and the array itself is also added as children. -/
def c5ArrFirst : Option FirstArg :=
  some (.child (.arr [.prim (.str "x")]))

set_option maxHeartbeats 4000000 in
/-- Witness for C5 at two concrete inputs: a props-object first argument
and an array first argument. -/
theorem claim_c5_witness :
    (isOkRun (createElement 10 "div" c5First c5Kids c5W) = true ∧
    ((outWorld c5W (createElement 10 "div" c5First c5Kids c5W)).effs.map
        EffSt.fn
      = c5W.effs.map EffSt.fn
        ++ specCreateFns (some ((namespaceElements "div").getD xhtmlNS))
            c5W.elems.length c5First c5Kids c5W.texts.length ∧
    List.Pairwise (fun a b => a.1 < b.1)
      (specCreateAccs c5First c5Kids c5W.texts.length).1)) ∧
    (isOkRun (createElement 10 "div" c5ArrFirst c5Kids c5W) = true ∧
    ((outWorld c5W (createElement 10 "div" c5ArrFirst c5Kids c5W)).effs.map
        EffSt.fn
      = c5W.effs.map EffSt.fn
        ++ specCreateFns (some ((namespaceElements "div").getD xhtmlNS))
            c5W.elems.length c5ArrFirst c5Kids c5W.texts.length ∧
    List.Pairwise (fun a b => a.1 < b.1)
      (specCreateAccs c5ArrFirst c5Kids c5W.texts.length).1)) :=
  ⟨⟨by decide, claim_c5 10 "div" c5First c5Kids c5W (by decide)⟩,
   ⟨by decide, claim_c5 10 "div" c5ArrFirst c5Kids c5W (by decide)⟩⟩

end Fw
